import Mathlib

/-!
Verification development for the stranger-chat matchmaking / pairing /
signaling server (`src/unnamed/part_000`, a socket.io server) and its text
moderation utilities (duplicated in `src/client/src/utils/moderation.ts`).

The server's mutable state (`waitingUsers`, `chatPairs`, `videoChatPairs`,
`reportedUsers`) is embedded as a Lean structure; every socket event handler
is embedded as a pure step function from state and event to the new state
plus the list of emitted socket messages (recipient, event).  JS `Map`s and
`Set`s are embedded as insertion-ordered association lists, matching
`Map.set` / `Map.delete` / `Set.add` / `Set.delete` semantics.  Strings that
undergo moderation are embedded as `List Char`; JS `toLowerCase`/the `i`
regex flag are embedded with `Char.toLower`, which agrees with JS on the
ASCII range that the banned-word list and the replacement text live in.
-/

namespace StrangerChat

/-! ## Text moderation (`containsBannedWords` / `filterMessage`) -/

abbrev Str := List Char

/-- Lower-casing of one character, as JS `toLowerCase` acts on ASCII. -/
def lcChar (c : Char) : Char := c.toLower

/-- Case-insensitive character comparison (the `i` regex flag). -/
def lcEq (a b : Char) : Bool := lcChar a == lcChar b

/-- Does `w` occur at the start of `s`, case-insensitively? -/
def ciStarts : Str → Str → Bool
  | [], _ => true
  | _ :: _, [] => false
  | a :: as, b :: bs => lcEq a b && ciStarts as bs

/-- Does `w` occur anywhere in `s`, case-insensitively (literal match)? -/
def occursCI (w : Str) : Str → Bool
  | [] => w.isEmpty
  | c :: rest => ciStarts w (c :: rest) || occursCI w rest

/-- Does `w` occur at the start of `s`, exactly (JS `String.includes` step)? -/
def exStarts : Str → Str → Bool
  | [], _ => true
  | _ :: _, [] => false
  | a :: as, b :: bs => a == b && exStarts as bs

/-- Exact substring test, JS `String.includes`. -/
def substrEx (w : Str) : Str → Bool
  | [] => w.isEmpty
  | c :: rest => exStarts w (c :: rest) || substrEx w rest

/-- The replacement text used by `filterMessage`. -/
def stars : Str := ['*', '*', '*']

/-- Fuelled left-to-right, non-overlapping, case-insensitive replacement of
the literal word `w` by `***`: the behaviour of
`message.replace(new RegExp(word, 'gi'), '***')` for the alphanumeric words
of the banned list.  The fuel only forces structural recursion; it is set to
the string length, which always suffices. -/
def replaceFuel (w : Str) : Nat → Str → Str
  | 0, s => s
  | _ + 1, [] => []
  | n + 1, c :: rest =>
    if ciStarts w (c :: rest) then
      stars ++ replaceFuel w n (rest.drop (w.length - 1))
    else
      c :: replaceFuel w n rest

/-- One global case-insensitive replacement pass of `w` by `***`. -/
def replaceCI (w s : Str) : Str := replaceFuel w s.length s

/-- The banned word list, in source order. -/
def BANNED_WORDS : List Str :=
  ["n1gg", "n1gger", "n1gga", "n1ggas", "n1ggers",
   "r3tard", "r3tarded",
   "f4ggot", "f4g",
   "k1ke",
   "sp1c", "sp1ck",
   "ch1nk",
   "w3tback",
   "t0welhead",
   "g00k",
   "d1ke",
   "tr4nny",
   "wh0re", "slut",
   "n4zi", "n4zis",
   "terrorist", "terrorism"].map String.data

/-- Is `c` kept by `replace(/[^a-z0-9]/g, '')`? -/
def isKeptChar (c : Char) : Bool :=
  ('a' ≤ c && c ≤ 'z') || ('0' ≤ c && c ≤ '9')

/-- Normalisation used by the detector: lower-case, then drop every
character outside `[a-z0-9]`. -/
def normalizeMsg (s : Str) : Str := (s.map lcChar).filter isKeptChar

/-- Source `containsBannedWords`: some banned word occurs as an exact
substring of the normalised message (the word is normalised too). -/
def containsBannedWords (m : Str) : Bool :=
  BANNED_WORDS.any (fun word => substrEx (normalizeMsg word) (normalizeMsg m))

/-- The `BANNED_WORDS.forEach` replacement loop of `filterMessage`. -/
def applyFilters (m : Str) : Str :=
  BANNED_WORDS.foldl (fun acc w => replaceCI w acc) m

/-- Source `filterMessage`: return the message unchanged when the detector
is silent, otherwise run every replacement pass. -/
def filterMessage (m : Str) : Str :=
  if containsBannedWords m then applyFilters m else m

/-- A word is well-formed for the replacement engine when it is nonempty and
none of its characters lower-cases to `'*'`. -/
def goodWord (w : Str) : Bool :=
  !w.isEmpty && w.all (fun c => !(lcChar c == '*'))

/-! ## Dynamic values and preference validation -/

/-- A primitive JS value, used for the elements of a `tags` array; `===` on
primitives is plain equality. -/
inductive JPrim where
  | pstr (s : String)
  | pbool (b : Bool)
  | pnum (n : Int)
  | pnull
  | pundef
deriving DecidableEq, BEq

/-- A JS runtime value, as far as `validatePreferences` discriminates them.
Array elements are kept primitive: the code only ever compares them with
`===` (`Array.includes`). -/
inductive JVal where
  | jstr (s : String)
  | jbool (b : Bool)
  | jnum (n : Int)
  | jarr (elems : List JPrim)
  | jnull
  | jundef
deriving DecidableEq, BEq

/-- Validated preferences (`UserPreferences` in the source).  The code only
checks that `tags` is an array, so the tag elements stay dynamic values. -/
structure UserPreferences where
  tags : List JPrim
  language : String
  ageGroup : String
  agreeToGuidelines : Bool
deriving DecidableEq

/-- The raw `data.preferences` field of a `findChat` payload: either not an
object at all (undefined, null, primitive, ...) or an object with the four
fields, each possibly of the wrong runtime type. -/
inductive PrefPayload where
  | notObject
  | object (tags language ageGroup agreeToGuidelines : JVal)
deriving DecidableEq

def isArr : JVal → Bool
  | .jarr _ => true
  | _ => false

def isStr : JVal → Bool
  | .jstr _ => true
  | _ => false

def isBoolV : JVal → Bool
  | .jbool _ => true
  | _ => false

/-- Source `validatePreferences`: truthy object, `Array.isArray(tags)`,
string `language`/`ageGroup`, boolean `agreeToGuidelines`. -/
def validatePreferences : PrefPayload → Bool
  | .notObject => false
  | .object t l a g => isArr t && isStr l && isStr a && isBoolV g

/-- Reading the payload as `UserPreferences` once validation passed. -/
def extractPrefs : PrefPayload → UserPreferences
  | .object (.jarr ts) (.jstr l) (.jstr a) (.jbool b) => ⟨ts, l, a, b⟩
  | _ => ⟨[], "", "", false⟩

structure WaitingUser where
  socketId : String
  preferences : UserPreferences
  isVideoChat : Bool
deriving DecidableEq

/-- The server's shared mutable state.  JS `Map`s (`chatPairs`,
`videoChatPairs`) become insertion-ordered association lists, the JS `Set`
`reportedUsers` an insertion-ordered list. -/
structure ServerState where
  waitingUsers : List WaitingUser
  chatPairs : List (String × String)
  reportedUsers : List String
  videoChatPairs : List (String × String)
deriving DecidableEq

def initState : ServerState := ⟨[], [], [], []⟩

/-! ## Map / Set operations -/

/-- JS `Map.get`. -/
def mapGet : List (String × String) → String → Option String
  | [], _ => none
  | (k', v) :: rest, k => if k' == k then some v else mapGet rest k

/-- JS `Map.set`: overwrite in place, else append. -/
def mapSet : List (String × String) → String → String → List (String × String)
  | [], k, v => [(k, v)]
  | (k', v') :: rest, k, v =>
    if k' == k then (k, v) :: rest else (k', v') :: mapSet rest k v

/-- JS `Map.delete`. -/
def mapDelete (m : List (String × String)) (k : String) : List (String × String) :=
  m.filter (fun p => !(p.1 == k))

/-- JS `Set.has` / `Array.includes` on strings. -/
def strMem (x : String) : List String → Bool
  | [] => false
  | y :: ys => (y == x) || strMem x ys

/-- JS `Set.add`. -/
def setAdd (l : List String) (x : String) : List String :=
  if strMem x l then l else l ++ [x]

/-- JS `Set.delete`. -/
def setDelete (l : List String) (x : String) : List String :=
  l.filter (fun y => !(y == x))

/-- JS `Array.includes` on tag values. -/
def jpMem (x : JPrim) : List JPrim → Bool
  | [] => false
  | y :: ys => (y == x) || jpMem x ys

/-! ## Matchmaker -/

/-- Source `findCommonTags`: `user1Tags.filter(tag => user2Tags.includes(tag))`. -/
def findCommonTags (t1 t2 : List JPrim) : List JPrim :=
  t1.filter (fun t => jpMem t t2)

/-- One element of the intermediate `matches` array of `findBestMatch`. -/
structure MatchEntry where
  user : WaitingUser
  commonTags : List JPrim
  ageGroupMatch : Bool

/-- The comparator passed to `matches.sort`. -/
def cmpMatches (a b : MatchEntry) : Int :=
  if b.commonTags.length != a.commonTags.length then
    (b.commonTags.length : Int) - (a.commonTags.length : Int)
  else if b.ageGroupMatch then 1 else -1

/-- Stable insertion relative to the comparator. -/
def insertCmp (cmp : MatchEntry → MatchEntry → Int) (x : MatchEntry) :
    List MatchEntry → List MatchEntry
  | [] => [x]
  | y :: ys => if cmp x y ≤ 0 then x :: y :: ys else y :: insertCmp cmp x ys

/-- A stable comparator sort.  ECMA-262 leaves the result order
implementation-defined when the comparator is inconsistent (this one is:
its tie-break inspects only its second argument), so any permutation the
engine may produce is on the same footing; every theorem below depends only
on the sorted list being a permutation of its input. -/
def sortCmp (cmp : MatchEntry → MatchEntry → Int) (l : List MatchEntry) :
    List MatchEntry :=
  l.foldr (insertCmp cmp) []

/-- The filter/map/filter pipeline of `findBestMatch` producing `matches`. -/
def matchCandidates (user : WaitingUser) (waiting : List WaitingUser)
    (rep : List String) : List MatchEntry :=
  ((waiting.filter (fun wu =>
      !(wu.socketId == user.socketId) && !(strMem wu.socketId rep) &&
      (wu.preferences.language == user.preferences.language))).map
    (fun wu =>
      ⟨wu, findCommonTags user.preferences.tags wu.preferences.tags,
       wu.preferences.ageGroup == user.preferences.ageGroup⟩)).filter
    (fun e => e.commonTags.length != 0)

/-- Source `findBestMatch`. -/
def findBestMatch (user : WaitingUser) (waiting : List WaitingUser)
    (rep : List String) : Option WaitingUser :=
  if waiting.length == 0 then none
  else
    match sortCmp cmpMatches (matchCandidates user waiting rep) with
    | [] => none
    | e :: _ => some e.user

/-! ## Event handlers -/

/-- `findIndex` + `splice(i, 1)`: remove the first entry with this id. -/
def removeFirstW : List WaitingUser → String → List WaitingUser
  | [], _ => []
  | u :: us, sid => if u.socketId == sid then us else u :: removeFirstW us sid

/-- JS `Array.find` by socket id. -/
def findW : List WaitingUser → String → Option WaitingUser
  | [], _ => none
  | u :: us, sid => if u.socketId == sid then some u else findW us sid

/-- Inbound socket events. -/
inductive InEvent where
  | findChat (sid : String) (preferences : PrefPayload) (isVideoChat : Bool)
  | message (sid : String) (text : Str)
  | next (sid : String)
  | report (sid : String) (reason : String)
  | disconnect (sid : String)
  | offer (sid target : String) (payload : Nat)
  | answer (sid target : String) (payload : Nat)
  | iceCandidate (sid target : String) (payload : Nat)
deriving DecidableEq

/-- Outbound socket events.  `findChatEcho` is the `socket.emit('findChat',…)`
performed by the `next` handler: a message sent to the client, not a
server-side transition.  Relay payloads are opaque. -/
inductive OutEvent where
  | errorEv (msg : String)
  | waitingEv
  | chatFound (commonTags : List JPrim) (isVideoChat : Bool) (partnerId : String)
  | chatEnded
  | messageEv (text : Str)
  | messageModerated (original filtered : Str)
  | findChatEcho (preferences : UserPreferences) (isVideoChat : Bool)
  | offerFwd (payload : Nat) (sender : String)
  | answerFwd (payload : Nat) (sender : String)
  | iceFwd (payload : Nat) (sender : String)
deriving DecidableEq

/-- `chatPairs.get(id) || videoChatPairs.get(id)`. -/
def partnerAny (s : ServerState) (sid : String) : Option String :=
  match mapGet s.chatPairs sid with
  | some p => some p
  | none => mapGet s.videoChatPairs sid

/-- The four deletions performed when a pairing ends. -/
def removePairs (s : ServerState) (a b : String) : ServerState :=
  { s with chatPairs := mapDelete (mapDelete s.chatPairs a) b,
           videoChatPairs := mapDelete (mapDelete s.videoChatPairs a) b }

/-- One socket event handled as in the source: new state plus the list of
emitted `(recipient, event)` messages, in emission order. -/
def step (s : ServerState) : InEvent → ServerState × List (String × OutEvent)
  | .findChat sid payload isVideo =>
    if validatePreferences payload then
      let prefs := extractPrefs payload
      let w1 := removeFirstW s.waitingUsers sid
      let user : WaitingUser := ⟨sid, prefs, isVideo⟩
      match findBestMatch user w1 s.reportedUsers with
      | some m =>
        let w2 := removeFirstW w1 m.socketId
        let common := findCommonTags prefs.tags m.preferences.tags
        let s' :=
          if isVideo then
            { s with waitingUsers := w2,
                     videoChatPairs :=
                       mapSet (mapSet s.videoChatPairs sid m.socketId) m.socketId sid }
          else
            { s with waitingUsers := w2,
                     chatPairs :=
                       mapSet (mapSet s.chatPairs sid m.socketId) m.socketId sid }
        (s', [(sid, .chatFound common isVideo m.socketId),
              (m.socketId, .chatFound common isVideo sid)])
      | none =>
        ({ s with waitingUsers := w1 ++ [user] }, [(sid, .waitingEv)])
    else
      (s, [(sid, .errorEv "Invalid preferences format")])
  | .offer sid target payload =>
    if mapGet s.videoChatPairs sid == some target then
      (s, [(target, .offerFwd payload sid)])
    else (s, [])
  | .answer sid target payload =>
    if mapGet s.videoChatPairs sid == some target then
      (s, [(target, .answerFwd payload sid)])
    else (s, [])
  | .iceCandidate sid target payload =>
    if mapGet s.videoChatPairs sid == some target then
      (s, [(target, .iceFwd payload sid)])
    else (s, [])
  | .next sid =>
    match partnerAny s sid with
    | some p =>
      let s1 := removePairs s sid p
      match findW s1.waitingUsers sid with
      | some u => (s1, [(p, .chatEnded), (sid, .findChatEcho u.preferences u.isVideoChat)])
      | none => (s1, [(p, .chatEnded)])
    | none =>
      match findW s.waitingUsers sid with
      | some u => (s, [(sid, .findChatEcho u.preferences u.isVideoChat)])
      | none => (s, [])
  | .message sid text =>
    match mapGet s.chatPairs sid with
    | some p =>
      let filtered := filterMessage text
      if filtered == text then
        (s, [(p, .messageEv filtered)])
      else
        (s, [(sid, .messageModerated text filtered), (p, .messageEv filtered)])
    | none => (s, [])
  | .report sid _reason =>
    match partnerAny s sid with
    | some p =>
      (removePairs { s with reportedUsers := setAdd s.reportedUsers p } sid p,
       [(p, .chatEnded)])
    | none => (s, [])
  | .disconnect sid =>
    let r :=
      match partnerAny s sid with
      | some p => (removePairs s sid p, [(p, OutEvent.chatEnded)])
      | none => (s, ([] : List (String × OutEvent)))
    ({ r.1 with waitingUsers := removeFirstW r.1.waitingUsers sid,
                reportedUsers := setDelete r.1.reportedUsers sid }, r.2)

/-- Run a sequence of events, discarding outputs. -/
def execTrace : ServerState → List InEvent → ServerState
  | s, [] => s
  | s, e :: es => execTrace (step s e).1 es

/-! ## Reachability with well-behaved findChat, and the state invariant -/

/-- Does this session currently appear as a key of either pairing map? -/
def pairedAny (s : ServerState) (sid : String) : Bool :=
  (mapGet s.chatPairs sid).isSome || (mapGet s.videoChatPairs sid).isSome

/-- An event is well-behaved in a state when it is not a `findChat` issued
by a currently-paired session. -/
def okEvent (s : ServerState) : InEvent → Bool
  | .findChat sid _ _ => !(pairedAny s sid)
  | _ => true

/-- Every event of the trace is well-behaved in the state it is applied to. -/
def goodTrace : ServerState → List InEvent → Bool
  | _, [] => true
  | s, e :: es => okEvent s e && goodTrace (step s e).1 es

def keysOf (m : List (String × String)) : List String := m.map Prod.fst

/-- A pairing map is symmetric with no duplicate keys. -/
def SymmNodup (m : List (String × String)) : Prop :=
  (∀ p ∈ m, (p.2, p.1) ∈ m) ∧ (keysOf m).Nodup

/-- The state invariant: both pairing maps symmetric and key-unique, no
session paired in both modes, waiting sessions unpaired, waiting ids
unique. -/
def Inv (s : ServerState) : Prop :=
  SymmNodup s.chatPairs ∧ SymmNodup s.videoChatPairs ∧
  (∀ p ∈ s.chatPairs, mapGet s.videoChatPairs p.1 = none) ∧
  (∀ u ∈ s.waitingUsers, mapGet s.chatPairs u.socketId = none ∧
      mapGet s.videoChatPairs u.socketId = none) ∧
  (s.waitingUsers.map (fun u => u.socketId)).Nodup

/-! ## Concrete example data used by closed theorems -/

/-- A well-formed preferences payload: one tag, English, one age group. -/
def examplePayload : PrefPayload :=
  .object (.jarr [.pstr "m"]) (.jstr "en") (.jstr "18") (.jbool true)

def examplePrefs : UserPreferences := extractPrefs examplePayload

/-- Three sessions request text chats with identical preferences: A and B
get paired, C is left waiting. -/
def exampleTrace3 : List InEvent :=
  [.findChat "A" examplePayload false,
   .findChat "B" examplePayload false,
   .findChat "C" examplePayload false]

/-- The state after `exampleTrace3`: chatPairs = A↔B, waiting = [C]. -/
def exampleState3 : ServerState := execTrace initState exampleTrace3

/-- A minimal state in which "A" and "B" are text-paired. -/
def examplePairedState : ServerState :=
  ⟨[], [("A", "B"), ("B", "A")], [], []⟩

/-- Two sessions pair up in text mode. -/
def exampleTrace2 : List InEvent :=
  [.findChat "A" examplePayload false, .findChat "B" examplePayload false]

/-- Two sessions pair up in video mode. -/
def exampleTrace2v : List InEvent :=
  [.findChat "X" examplePayload true, .findChat "Y" examplePayload true]

/-! ### Properties of the replacement engine -/

example : containsBannedWords "hello there".data = false := by decide
example : containsBannedWords "s-l-u-t".data = true := by decide
example : filterMessage "you idiot wh0re".data = "you idiot ***".data := by decide
example : filterMessage "s-l-u-t".data = "s-l-u-t".data := by decide
example : BANNED_WORDS.all goodWord = true := by decide

theorem lcChar_star : lcChar '*' = '*' := by decide

theorem lcEq_star_eq_false {c : Char} (h : lcChar c ≠ '*') : lcEq c '*' = false := by
  simp [lcEq, lcChar_star]
  exact h

theorem replaceFuel_nil (w : Str) (n : Nat) : replaceFuel w n [] = [] := by
  cases n <;> simp [replaceFuel]

/-- A case-insensitive occurrence cannot start on a `'*'` when the word has
no character lower-casing to `'*'`. -/
theorem occursCI_star_cons {u0 : Char} {u1 x : Str} (hu : lcChar u0 ≠ '*') :
    occursCI (u0 :: u1) ('*' :: x) = occursCI (u0 :: u1) x := by
  simp [occursCI, ciStarts, lcEq_star_eq_false hu]

theorem occursCI_stars {u0 : Char} {u1 x : Str} (hu : lcChar u0 ≠ '*') :
    occursCI (u0 :: u1) (stars ++ x) = occursCI (u0 :: u1) x := by
  simp [stars, occursCI_star_cons hu]

/-- A star-free word that starts the output of a replacement pass already
started the input: replacement only rewrites text at or after the first
match, inserting `'*'`s there. -/
theorem ciStarts_reflect (w : Str) :
    ∀ (t u : Str) (n : Nat), (∀ c ∈ u, lcChar c ≠ '*') →
      ciStarts u (replaceFuel w n t) = true → ciStarts u t = true := by
  intro t
  induction t with
  | nil =>
    intro u n _ h
    rw [replaceFuel_nil] at h
    cases u with
    | nil => simp [ciStarts]
    | cons a as => simp [ciStarts] at h
  | cons c rest ih =>
    intro u n hstar h
    cases n with
    | zero => exact h
    | succ n =>
      by_cases hm : ciStarts w (c :: rest) = true
      · rw [replaceFuel, if_pos hm] at h
        cases u with
        | nil => simp [ciStarts]
        | cons a as =>
          exfalso
          have ha : lcChar a ≠ '*' := hstar a (List.mem_cons_self a as)
          simp [stars, ciStarts, lcEq_star_eq_false ha] at h
      · rw [replaceFuel, if_neg hm] at h
        cases u with
        | nil => simp [ciStarts]
        | cons a as =>
          simp only [ciStarts, Bool.and_eq_true] at h ⊢
          refine ⟨h.1, ?_⟩
          exact ih as n (fun d hd => hstar d (List.mem_cons_of_mem a hd)) h.2

theorem occursCI_eq_false_cons {u : Str} {c : Char} {rest : Str}
    (h : occursCI u (c :: rest) = false) :
    ciStarts u (c :: rest) = false ∧ occursCI u rest = false := by
  simpa [occursCI] using h

theorem occursCI_drop {u : Str} :
    ∀ (l : Str), occursCI u l = false → ∀ i, occursCI u (l.drop i) = false := by
  intro l
  induction l with
  | nil => intro h i; simpa using h
  | cons c rest ih =>
    intro h i
    cases i with
    | zero => exact h
    | succ i => exact ih (occursCI_eq_false_cons h).2 i

/-- After a full replacement pass of a good word over itself, no
case-insensitive occurrence of the word survives: every occurrence of the
word in the input intersects a replaced match, and the inserted `'*'`s can
never take part in a new occurrence. -/
theorem replace_self_none {w : Str} (hw : goodWord w = true) :
    ∀ (n : Nat) (s : Str), s.length ≤ n →
      occursCI w (replaceFuel w n s) = false := by
  have hne : w.isEmpty = false := by
    simp [goodWord, Bool.and_eq_true] at hw
    simpa using hw.1
  have hstar : ∀ c ∈ w, lcChar c ≠ '*' := by
    simp [goodWord, Bool.and_eq_true, List.all_eq_true] at hw
    intro c hc
    exact hw.2 c hc
  intro n
  induction n with
  | zero =>
    intro s hs
    have : s = [] := List.length_eq_zero.mp (Nat.le_zero.mp hs)
    subst this
    simp [replaceFuel, occursCI, hne]
  | succ n ih =>
    intro s hs
    cases s with
    | nil => simp [replaceFuel_nil, occursCI, hne]
    | cons c rest =>
      have hrest : rest.length ≤ n := by
        simpa using Nat.lt_succ_iff.mp (Nat.lt_of_lt_of_le (by simp) hs)
      by_cases hm : ciStarts w (c :: rest) = true
      · rw [replaceFuel, if_pos hm]
        cases w with
        | nil => simp at hne
        | cons w0 w1 =>
          rw [occursCI_stars (hstar w0 (List.mem_cons_self w0 w1))]
          refine ih (rest.drop ((w0 :: w1).length - 1)) ?_
          rw [List.length_drop]
          exact Nat.le_trans (Nat.sub_le _ _) hrest
      · rw [replaceFuel, if_neg hm]
        simp only [occursCI, Bool.or_eq_false_iff]
        refine ⟨?_, ih rest hrest⟩
        cases w with
        | nil => simp at hne
        | cons w0 w1 =>
          by_contra hcon
          rw [Bool.not_eq_false] at hcon
          simp only [ciStarts, Bool.and_eq_true] at hcon
          have h1 : ciStarts w1 rest = true :=
            ciStarts_reflect (w0 :: w1) rest w1 n
              (fun d hd => hstar d (List.mem_cons_of_mem w0 hd)) hcon.2
          exact hm (by simp [ciStarts, hcon.1, h1])

/-- A replacement pass of any word never creates an occurrence of a good
word that was absent before. -/
theorem replace_other_none {u : Str} (hu : goodWord u = true) (w : Str) :
    ∀ (n : Nat) (s : Str), occursCI u s = false →
      occursCI u (replaceFuel w n s) = false := by
  have hne : u.isEmpty = false := by
    simp [goodWord, Bool.and_eq_true] at hu
    simpa using hu.1
  have hstar : ∀ c ∈ u, lcChar c ≠ '*' := by
    simp [goodWord, Bool.and_eq_true, List.all_eq_true] at hu
    intro c hc
    exact hu.2 c hc
  intro n
  induction n with
  | zero => intro s hs; exact hs
  | succ n ih =>
    intro s hs
    cases s with
    | nil => simp [replaceFuel_nil, occursCI, hne]
    | cons c rest =>
      obtain ⟨hs1, hs2⟩ := occursCI_eq_false_cons hs
      by_cases hm : ciStarts w (c :: rest) = true
      · rw [replaceFuel, if_pos hm]
        cases u with
        | nil => simp at hne
        | cons u0 u1 =>
          rw [occursCI_stars (hstar u0 (List.mem_cons_self u0 u1))]
          exact ih _ (occursCI_drop rest hs2 _)
      · rw [replaceFuel, if_neg hm]
        simp only [occursCI, Bool.or_eq_false_iff]
        refine ⟨?_, ih rest hs2⟩
        cases u with
        | nil => simp at hne
        | cons u0 u1 =>
          by_contra hcon
          rw [Bool.not_eq_false] at hcon
          simp only [ciStarts, Bool.and_eq_true] at hcon
          have h1 : ciStarts u1 rest = true :=
            ciStarts_reflect w rest u1 n
              (fun d hd => hstar d (List.mem_cons_of_mem u0 hd)) hcon.2
          have h2 : ciStarts (u0 :: u1) (c :: rest) = true := by
            simp [ciStarts, hcon.1, h1]
          rw [h2] at hs1
          simp at hs1

/-- A pass for a word that does not occur is the identity. -/
theorem replace_noop {w : Str} :
    ∀ (n : Nat) (s : Str), occursCI w s = false → replaceFuel w n s = s := by
  intro n
  induction n with
  | zero => intro s _; rfl
  | succ n ih =>
    intro s hs
    cases s with
    | nil => simp [replaceFuel_nil]
    | cons c rest =>
      obtain ⟨hs1, hs2⟩ := occursCI_eq_false_cons hs
      rw [replaceFuel, if_neg (by simp [hs1]), ih rest hs2]

theorem foldPreserve {u : Str} (hu : goodWord u = true) :
    ∀ (ws : List Str) (t : Str), occursCI u t = false →
      occursCI u (ws.foldl (fun a w => replaceCI w a) t) = false := by
  intro ws
  induction ws with
  | nil => intro t ht; exact ht
  | cons w ws ih =>
    intro t ht
    exact ih (replaceCI w t) (replace_other_none hu w t.length t ht)

theorem allGone :
    ∀ (ws : List Str) (t : Str), (∀ w ∈ ws, goodWord w = true) →
      ∀ w ∈ ws, occursCI w (ws.foldl (fun a ww => replaceCI ww a) t) = false := by
  intro ws
  induction ws with
  | nil => intro t _ w hw; simp at hw
  | cons w0 ws ih =>
    intro t hgood w hw
    have hg0 : goodWord w0 = true := hgood w0 (List.mem_cons_self w0 ws)
    rcases List.mem_cons.mp hw with h | h
    · subst h
      exact foldPreserve hg0 ws (replaceCI w t)
        (replace_self_none hg0 t.length t (Nat.le_refl _))
    · exact ih (replaceCI w0 t)
        (fun ww hww => hgood ww (List.mem_cons_of_mem w0 hww)) w h

theorem foldFixed :
    ∀ (ws : List Str) (t : Str), (∀ w ∈ ws, occursCI w t = false) →
      ws.foldl (fun a w => replaceCI w a) t = t := by
  intro ws
  induction ws with
  | nil => intro t _; rfl
  | cons w ws ih =>
    intro t h
    have h0 : replaceCI w t = t :=
      replace_noop t.length t (h w (List.mem_cons_self w ws))
    simp only [List.foldl_cons, h0]
    exact ih t (fun ww hww => h ww (List.mem_cons_of_mem w hww))

theorem bannedGood : ∀ w ∈ BANNED_WORDS, goodWord w = true := by decide

/-- Running the replacement loop twice is the same as running it once. -/
theorem applyFilters_idem (m : Str) : applyFilters (applyFilters m) = applyFilters m :=
  foldFixed BANNED_WORDS (applyFilters m) (allGone BANNED_WORDS m bannedGood)

/-! ### Association-list / set lemmas -/

theorem strMem_iff {x : String} : ∀ {l : List String}, strMem x l = true ↔ x ∈ l := by
  intro l
  induction l with
  | nil => simp [strMem]
  | cons y ys ih =>
    rw [strMem, List.mem_cons, Bool.or_eq_true, ih, beq_iff_eq]
    constructor
    · intro h
      rcases h with h | h
      · exact Or.inl h.symm
      · exact Or.inr h
    · intro h
      rcases h with h | h
      · exact Or.inl h.symm
      · exact Or.inr h

theorem mapGet_eq_none_iff {k : String} :
    ∀ {m : List (String × String)}, mapGet m k = none ↔ ∀ p ∈ m, p.1 ≠ k := by
  intro m
  induction m with
  | nil => simp [mapGet]
  | cons p rest ih =>
    obtain ⟨k', v⟩ := p
    by_cases h : k' = k
    · subst h
      simp [mapGet]
    · simp [mapGet, h, ih]

theorem mem_of_mapGet {k v : String} :
    ∀ {m : List (String × String)}, mapGet m k = some v → (k, v) ∈ m := by
  intro m
  induction m with
  | nil => simp [mapGet]
  | cons p rest ih =>
    obtain ⟨k', v'⟩ := p
    by_cases h : k' = k
    · subst h
      simp [mapGet]
      intro hv
      exact Or.inl hv.symm
    · simp [mapGet, h]
      intro hm
      exact Or.inr (ih hm)

theorem mapGet_of_mem {k v : String} :
    ∀ {m : List (String × String)}, (keysOf m).Nodup → (k, v) ∈ m →
      mapGet m k = some v := by
  intro m
  induction m with
  | nil => simp
  | cons p rest ih =>
    obtain ⟨k', v'⟩ := p
    intro hnd hmem
    rw [keysOf, List.map_cons, List.nodup_cons] at hnd
    have hnd0 : k' ∉ List.map Prod.fst rest ∧ (keysOf rest).Nodup := by
      exact ⟨hnd.1, hnd.2⟩
    rcases List.mem_cons.mp hmem with h | h
    · rw [Prod.ext_iff] at h
      obtain ⟨h1, h2⟩ := h
      dsimp at h1 h2
      subst h1
      subst h2
      simp [mapGet]
    · by_cases hkk : k' = k
      · subst hkk
        exfalso
        exact hnd0.1 (List.mem_map.mpr ⟨(k', v), h, rfl⟩)
      · rw [mapGet, if_neg (by simp [hkk])]
        exact ih (by simpa [keysOf] using hnd0.2) h

theorem mem_mapDelete {p : String × String} {m : List (String × String)}
    {k : String} : p ∈ mapDelete m k ↔ p ∈ m ∧ p.1 ≠ k := by
  simp [mapDelete, List.mem_filter]

theorem mapGet_mapDelete_self {m : List (String × String)} {k : String} :
    mapGet (mapDelete m k) k = none := by
  rw [mapGet_eq_none_iff]
  intro p hp
  exact (mem_mapDelete.mp hp).2

theorem mapDelete_cons {k' v' j : String} {rest : List (String × String)} :
    mapDelete ((k', v') :: rest) j =
      if k' = j then mapDelete rest j else (k', v') :: mapDelete rest j := by
  by_cases h : k' = j <;> simp [mapDelete, List.filter_cons, h]

theorem mapGet_mapDelete_other {j k : String} (h : k ≠ j) :
    ∀ {m : List (String × String)}, mapGet (mapDelete m j) k = mapGet m k := by
  intro m
  induction m with
  | nil => simp [mapDelete, mapGet]
  | cons p rest ih =>
    obtain ⟨k', v'⟩ := p
    rw [mapDelete_cons]
    by_cases hj : k' = j
    · rw [if_pos hj, ih, mapGet, if_neg (by simp [hj ▸ Ne.symm h])]
    · rw [if_neg hj]
      by_cases hk : k' = k
      · subst hk
        rw [mapGet, if_pos (by simp), mapGet, if_pos (by simp)]
      · rw [mapGet, if_neg (by simp [hk]), mapGet, if_neg (by simp [hk]), ih]

theorem mapDelete_sublist (m : List (String × String)) (k : String) :
    List.Sublist (mapDelete m k) m := List.filter_sublist m

theorem keysOf_mapDelete_nodup {m : List (String × String)} {k : String}
    (h : (keysOf m).Nodup) : (keysOf (mapDelete m k)).Nodup :=
  List.Nodup.sublist ((mapDelete_sublist m k).map Prod.fst) h

theorem mapSet_fresh {m : List (String × String)} {k v : String}
    (h : mapGet m k = none) : mapSet m k v = m ++ [(k, v)] := by
  induction m with
  | nil => simp [mapSet]
  | cons p rest ih =>
    obtain ⟨k', v'⟩ := p
    by_cases hk : k' = k
    · subst hk
      simp [mapGet] at h
    · simp [mapGet, hk] at h
      simp [mapSet, hk, ih h]

theorem mapGet_append {m1 m2 : List (String × String)} {k : String} :
    mapGet (m1 ++ m2) k =
      match mapGet m1 k with
      | some v => some v
      | none => mapGet m2 k := by
  induction m1 with
  | nil => simp [mapGet]
  | cons p rest ih =>
    obtain ⟨k', v'⟩ := p
    by_cases hk : k' = k
    · subst hk
      simp [mapGet]
    · simp [mapGet, hk, ih]

theorem mem_setAdd_self {l : List String} {x : String} : x ∈ setAdd l x := by
  by_cases h : strMem x l = true
  · simp [setAdd, h]
    exact strMem_iff.mp h
  · simp [setAdd, Bool.eq_false_iff.mpr h, h]

theorem mem_setAdd_of_mem {l : List String} {x y : String} (h : y ∈ l) :
    y ∈ setAdd l x := by
  by_cases hx : strMem x l = true <;> simp [setAdd, hx, h]

theorem mem_setDelete {l : List String} {x y : String} :
    y ∈ setDelete l x ↔ y ∈ l ∧ y ≠ x := by
  simp [setDelete, List.mem_filter]

/-! ### Waiting-list lemmas -/

theorem removeFirstW_sublist : ∀ (l : List WaitingUser) (sid : String),
    List.Sublist (removeFirstW l sid) l := by
  intro l sid
  induction l with
  | nil => simp [removeFirstW]
  | cons u us ih =>
    by_cases h : u.socketId = sid
    · rw [removeFirstW, if_pos (by simp [h])]
      exact List.Sublist.cons u (List.Sublist.refl us)
    · rw [removeFirstW, if_neg (by simp [h])]
      exact List.Sublist.cons₂ u ih

theorem removeFirstW_mem {l : List WaitingUser} {sid : String}
    {u : WaitingUser} (h : u ∈ removeFirstW l sid) : u ∈ l :=
  (removeFirstW_sublist l sid).subset h

theorem removeFirstW_ids_nodup {l : List WaitingUser} {sid : String}
    (h : (l.map (fun u => u.socketId)).Nodup) :
    ((removeFirstW l sid).map (fun u => u.socketId)).Nodup :=
  List.Nodup.sublist ((removeFirstW_sublist l sid).map (fun u => u.socketId)) h

theorem removeFirstW_not_id : ∀ {l : List WaitingUser} {sid : String},
    (l.map (fun u => u.socketId)).Nodup →
    ∀ u ∈ removeFirstW l sid, u.socketId ≠ sid := by
  intro l
  induction l with
  | nil => intro sid _ u hu; simp [removeFirstW] at hu
  | cons v vs ih =>
    intro sid hnd u hu
    rw [List.map_cons, List.nodup_cons] at hnd
    by_cases h : v.socketId = sid
    · rw [removeFirstW, if_pos (by simp [h])] at hu
      intro hc
      apply hnd.1
      rw [h, ← hc]
      exact List.mem_map.mpr ⟨u, hu, rfl⟩
    · rw [removeFirstW, if_neg (by simp [h])] at hu
      rcases List.mem_cons.mp hu with rfl | hu'
      · exact h
      · exact ih hnd.2 u hu'

/-! ### Matchmaker lemmas -/

theorem mem_insertCmp {cmp : MatchEntry → MatchEntry → Int} {x y : MatchEntry} :
    ∀ {l : List MatchEntry}, x ∈ insertCmp cmp y l ↔ x = y ∨ x ∈ l := by
  intro l
  induction l with
  | nil => simp [insertCmp]
  | cons z zs ih =>
    by_cases h : cmp y z ≤ 0
    · simp [insertCmp, h]
    · simp [insertCmp, h, ih]
      tauto

theorem mem_sortCmp {cmp : MatchEntry → MatchEntry → Int} {x : MatchEntry} :
    ∀ {l : List MatchEntry}, x ∈ sortCmp cmp l ↔ x ∈ l := by
  intro l
  induction l with
  | nil => simp [sortCmp]
  | cons z zs ih =>
    simp only [sortCmp, List.foldr_cons] at ih ⊢
    rw [mem_insertCmp, ih, List.mem_cons]

/-- Everything `findBestMatch` promises about a returned candidate: it is a
waiting entry other than the requester, not reported, same language, with a
nonempty common-tag list.  (Nothing about `isVideoChat`: the source never
compares it.) -/
theorem findBestMatch_spec {user : WaitingUser} {waiting : List WaitingUser}
    {rep : List String} {m : WaitingUser}
    (h : findBestMatch user waiting rep = some m) :
    m ∈ waiting ∧ m.socketId ≠ user.socketId ∧ m.socketId ∉ rep ∧
      m.preferences.language = user.preferences.language ∧
      findCommonTags user.preferences.tags m.preferences.tags ≠ [] := by
  rw [findBestMatch] at h
  by_cases hlen : (waiting.length == 0) = true
  · rw [if_pos hlen] at h
    cases h
  · rw [if_neg hlen] at h
    rcases hs : sortCmp cmpMatches (matchCandidates user waiting rep) with _ | ⟨e, es⟩
    · rw [hs] at h
      cases h
    · rw [hs] at h
      have hm : m = e.user := by
        cases h
        rfl

      have he : e ∈ matchCandidates user waiting rep := by
        have : e ∈ sortCmp cmpMatches (matchCandidates user waiting rep) := by
          rw [hs]
          exact List.mem_cons_self e es
        exact mem_sortCmp.mp this
      rw [matchCandidates] at he
      obtain ⟨he1, he2⟩ := List.mem_filter.mp he
      obtain ⟨wu, hwu, hfe⟩ := List.mem_map.mp he1
      obtain ⟨hw1, hw2⟩ := List.mem_filter.mp hwu
      have heu : e.user = wu := by rw [← hfe]
      have hct : e.commonTags = findCommonTags user.preferences.tags wu.preferences.tags := by
        rw [← hfe]
      simp only [Bool.and_eq_true] at hw2
      obtain ⟨⟨hid, hrep⟩, hlang⟩ := hw2
      subst hm
      rw [heu]
      refine ⟨hw1, ?_, ?_, ?_, ?_⟩
      · intro hc
        rw [hc] at hid
        simp at hid
      · intro hc
        rw [Bool.not_eq_true'] at hrep
        rw [← strMem_iff] at hc
        rw [hrep] at hc
        cases hc
      · exact (beq_iff_eq.mp hlang)
      · intro hc
        rw [hct] at he2
        rw [hc] at he2
        simp at he2

/-! ### Pairing-map invariant machinery -/

theorem mapGet_none_iff_not_key {m : List (String × String)} {k : String} :
    mapGet m k = none ↔ k ∉ keysOf m := by
  rw [mapGet_eq_none_iff, keysOf]
  constructor
  · intro h hk
    obtain ⟨p, hp, hpk⟩ := List.mem_map.mp hk
    exact h p hp hpk
  · intro h p hp hpk
    exact h (List.mem_map.mpr ⟨p, hp, hpk⟩)

theorem mapGet_mapDelete_none {m : List (String × String)} {j k : String}
    (h : mapGet m k = none) : mapGet (mapDelete m j) k = none := by
  by_cases hk : k = j
  · subst hk
    exact mapGet_mapDelete_self
  · rw [mapGet_mapDelete_other hk]
    exact h

theorem mapSet_insertPair_eq {m : List (String × String)} {a b : String}
    (ha : mapGet m a = none) (hb : mapGet m b = none) (hab : a ≠ b) :
    mapSet (mapSet m a b) b a = m ++ [(a, b), (b, a)] := by
  have h1 : mapSet m a b = m ++ [(a, b)] := mapSet_fresh ha
  have hb' : mapGet (m ++ [(a, b)]) b = none := by
    rw [mapGet_append, hb]
    simp [mapGet, hab]
  rw [h1, mapSet_fresh hb', List.append_assoc]
  rfl

theorem mapGet_appendPair_none {m : List (String × String)} {a b k : String}
    (hm : mapGet m k = none) (h1 : k ≠ a) (h2 : k ≠ b) :
    mapGet (m ++ [(a, b), (b, a)]) k = none := by
  rw [mapGet_append, hm, mapGet, if_neg (by simp [Ne.symm h1]),
      mapGet, if_neg (by simp [Ne.symm h2]), mapGet]

theorem SymmNodup_insertPair {m : List (String × String)} {a b : String}
    (hm : SymmNodup m) (ha : mapGet m a = none) (hb : mapGet m b = none)
    (hab : a ≠ b) : SymmNodup (mapSet (mapSet m a b) b a) := by
  rw [mapSet_insertPair_eq ha hb hab]
  constructor
  · intro p hp
    rcases List.mem_append.mp hp with hp' | hp'
    · exact List.mem_append.mpr (Or.inl (hm.1 p hp'))
    · rcases List.mem_cons.mp hp' with h | h
      · subst h
        exact List.mem_append.mpr (Or.inr (by simp))
      · have : p = (b, a) := by simpa using h
        subst this
        exact List.mem_append.mpr (Or.inr (by simp))
  · rw [keysOf, List.map_append]
    rw [List.nodup_append]
    refine ⟨hm.2, by simp [hab], ?_⟩
    intro x hx
    simp only [List.map_cons, List.map_nil, List.mem_cons, List.not_mem_nil]
    intro hc
    rcases hc with hc | hc
    · subst hc
      exact (mapGet_none_iff_not_key.mp ha) hx
    · rcases hc with hc | hc
      · subst hc
        exact (mapGet_none_iff_not_key.mp hb) hx
      · simp at hc

theorem SymmNodup_delPair {m : List (String × String)} {a b : String}
    (hm : SymmNodup m)
    (hcase : mapGet m a = some b ∨ (mapGet m a = none ∧ mapGet m b = none)) :
    SymmNodup (mapDelete (mapDelete m a) b) := by
  constructor
  · intro p hp
    have hp1 := mem_mapDelete.mp hp
    have hp2 := mem_mapDelete.mp hp1.1
    have hmem : (p.2, p.1) ∈ m := hm.1 p hp2.1
    refine mem_mapDelete.mpr ⟨mem_mapDelete.mpr ⟨hmem, ?_⟩, ?_⟩
    · intro hc
      have hma : (a, p.1) ∈ m := by
        rw [← hc]
        exact hmem
      have hga : mapGet m a = some p.1 := mapGet_of_mem hm.2 hma
      rcases hcase with h | h
      · rw [hga] at h
        injection h with h
        exact hp1.2 h
      · rw [h.1] at hga
        cases hga
    · intro hc
      have hmb : (b, p.1) ∈ m := by
        rw [← hc]
        exact hmem
      have hgb : mapGet m b = some p.1 := mapGet_of_mem hm.2 hmb
      rcases hcase with h | h
      · have hba : (b, a) ∈ m := hm.1 (a, b) (mem_of_mapGet h)
        have hba' : mapGet m b = some a := mapGet_of_mem hm.2 hba
        rw [hba'] at hgb
        injection hgb with h2
        exact hp2.2 h2.symm
      · rw [h.2] at hgb
        cases hgb
  · exact keysOf_mapDelete_nodup (keysOf_mapDelete_nodup hm.2)

theorem pairedAny_false {s : ServerState} {sid : String}
    (h : pairedAny s sid = false) :
    mapGet s.chatPairs sid = none ∧ mapGet s.videoChatPairs sid = none := by
  rw [pairedAny] at h
  constructor
  · rcases hc : mapGet s.chatPairs sid with _ | v
    · rfl
    · rw [hc] at h
      simp at h
  · rcases hc : mapGet s.videoChatPairs sid with _ | v
    · rfl
    · rw [hc] at h
      simp at h

/-! ### Characterisation of each handler's step -/

theorem step_findChat_invalid {s : ServerState} {sid : String}
    {payload : PrefPayload} {isVideo : Bool}
    (h : validatePreferences payload = false) :
    step s (.findChat sid payload isVideo) =
      (s, [(sid, .errorEv "Invalid preferences format")]) := by
  simp [step, h]

theorem step_findChat_noMatch {s : ServerState} {sid : String}
    {payload : PrefPayload} {isVideo : Bool}
    (hval : validatePreferences payload = true)
    (hm : findBestMatch ⟨sid, extractPrefs payload, isVideo⟩
        (removeFirstW s.waitingUsers sid) s.reportedUsers = none) :
    step s (.findChat sid payload isVideo) =
      ({ s with waitingUsers :=
          removeFirstW s.waitingUsers sid ++ [⟨sid, extractPrefs payload, isVideo⟩] },
       [(sid, .waitingEv)]) := by
  simp [step, hval, hm]

theorem step_findChat_match_text {s : ServerState} {sid : String}
    {payload : PrefPayload} {m : WaitingUser}
    (hval : validatePreferences payload = true)
    (hm : findBestMatch ⟨sid, extractPrefs payload, false⟩
        (removeFirstW s.waitingUsers sid) s.reportedUsers = some m) :
    step s (.findChat sid payload false) =
      ({ s with waitingUsers := removeFirstW (removeFirstW s.waitingUsers sid) m.socketId,
                chatPairs := mapSet (mapSet s.chatPairs sid m.socketId) m.socketId sid },
       [(sid, .chatFound (findCommonTags (extractPrefs payload).tags m.preferences.tags)
                false m.socketId),
        (m.socketId, .chatFound (findCommonTags (extractPrefs payload).tags m.preferences.tags)
                false sid)]) := by
  simp [step, hval, hm]

theorem step_findChat_match_video {s : ServerState} {sid : String}
    {payload : PrefPayload} {m : WaitingUser}
    (hval : validatePreferences payload = true)
    (hm : findBestMatch ⟨sid, extractPrefs payload, true⟩
        (removeFirstW s.waitingUsers sid) s.reportedUsers = some m) :
    step s (.findChat sid payload true) =
      ({ s with waitingUsers := removeFirstW (removeFirstW s.waitingUsers sid) m.socketId,
                videoChatPairs := mapSet (mapSet s.videoChatPairs sid m.socketId) m.socketId sid },
       [(sid, .chatFound (findCommonTags (extractPrefs payload).tags m.preferences.tags)
                true m.socketId),
        (m.socketId, .chatFound (findCommonTags (extractPrefs payload).tags m.preferences.tags)
                true sid)]) := by
  simp [step, hval, hm]

theorem step_message_none {s : ServerState} {sid : String} {text : Str}
    (h : mapGet s.chatPairs sid = none) :
    step s (.message sid text) = (s, []) := by
  simp [step, h]

theorem step_message_clean {s : ServerState} {sid p : String} {text : Str}
    (h : mapGet s.chatPairs sid = some p) (hf : filterMessage text = text) :
    step s (.message sid text) = (s, [(p, .messageEv (filterMessage text))]) := by
  simp [step, h, hf]

theorem step_message_dirty {s : ServerState} {sid p : String} {text : Str}
    (h : mapGet s.chatPairs sid = some p) (hf : filterMessage text ≠ text) :
    step s (.message sid text) =
      (s, [(sid, .messageModerated text (filterMessage text)),
           (p, .messageEv (filterMessage text))]) := by
  have hf' : (filterMessage text == text) = false := by
    simpa using hf
  simp [step, h, hf']

theorem step_message_state (s : ServerState) (sid : String) (text : Str) :
    (step s (.message sid text)).1 = s := by
  rcases h : mapGet s.chatPairs sid with _ | p
  · rw [step_message_none h]
  · by_cases hf : filterMessage text = text
    · rw [step_message_clean h hf]
    · rw [step_message_dirty h hf]

theorem step_offer_eq (s : ServerState) (sid target : String) (payload : Nat) :
    step s (.offer sid target payload) =
      (s, if mapGet s.videoChatPairs sid = some target then
            [(target, .offerFwd payload sid)]
          else []) := by
  by_cases h : mapGet s.videoChatPairs sid = some target
  · simp [step, h]
  · have h' : (mapGet s.videoChatPairs sid == some target) = false := by
      simpa using h
    simp [step, h', h]

theorem step_answer_eq (s : ServerState) (sid target : String) (payload : Nat) :
    step s (.answer sid target payload) =
      (s, if mapGet s.videoChatPairs sid = some target then
            [(target, .answerFwd payload sid)]
          else []) := by
  by_cases h : mapGet s.videoChatPairs sid = some target
  · simp [step, h]
  · have h' : (mapGet s.videoChatPairs sid == some target) = false := by
      simpa using h
    simp [step, h', h]

theorem step_ice_eq (s : ServerState) (sid target : String) (payload : Nat) :
    step s (.iceCandidate sid target payload) =
      (s, if mapGet s.videoChatPairs sid = some target then
            [(target, .iceFwd payload sid)]
          else []) := by
  by_cases h : mapGet s.videoChatPairs sid = some target
  · simp [step, h]
  · have h' : (mapGet s.videoChatPairs sid == some target) = false := by
      simpa using h
    simp [step, h', h]

theorem step_next_paired {s : ServerState} {sid p : String}
    (h : partnerAny s sid = some p) :
    step s (.next sid) =
      (removePairs s sid p,
       match findW (removePairs s sid p).waitingUsers sid with
       | some u => [(p, OutEvent.chatEnded), (sid, .findChatEcho u.preferences u.isVideoChat)]
       | none => [(p, OutEvent.chatEnded)]) := by
  rcases hf : findW (removePairs s sid p).waitingUsers sid with _ | u <;>
    simp [step, h, hf]

theorem step_next_unpaired {s : ServerState} {sid : String}
    (h : partnerAny s sid = none) :
    step s (.next sid) =
      (s, match findW s.waitingUsers sid with
          | some u => [(sid, OutEvent.findChatEcho u.preferences u.isVideoChat)]
          | none => []) := by
  rcases hf : findW s.waitingUsers sid with _ | u <;> simp [step, h, hf]

theorem step_report_paired {s : ServerState} {sid p : String} {reason : String}
    (h : partnerAny s sid = some p) :
    step s (.report sid reason) =
      (removePairs { s with reportedUsers := setAdd s.reportedUsers p } sid p,
       [(p, .chatEnded)]) := by
  simp [step, h]

theorem step_report_unpaired {s : ServerState} {sid : String} {reason : String}
    (h : partnerAny s sid = none) :
    step s (.report sid reason) = (s, []) := by
  simp [step, h]

theorem step_disconnect_paired {s : ServerState} {sid p : String}
    (h : partnerAny s sid = some p) :
    step s (.disconnect sid) =
      ({ removePairs s sid p with
           waitingUsers := removeFirstW (removePairs s sid p).waitingUsers sid,
           reportedUsers := setDelete (removePairs s sid p).reportedUsers sid },
       [(p, .chatEnded)]) := by
  simp [step, h]

theorem step_disconnect_unpaired {s : ServerState} {sid : String}
    (h : partnerAny s sid = none) :
    step s (.disconnect sid) =
      ({ s with waitingUsers := removeFirstW s.waitingUsers sid,
                reportedUsers := setDelete s.reportedUsers sid },
       []) := by
  simp [step, h]

/-- Removing a pairing (all four deletions) preserves the invariant. -/
theorem Inv_removePairs {s : ServerState} {sid p : String} (hInv : Inv s)
    (hp : partnerAny s sid = some p) : Inv (removePairs s sid p) := by
  obtain ⟨hc, hv, hdisj, hwait, hnd⟩ := hInv
  rw [partnerAny] at hp
  have hcases :
      (mapGet s.chatPairs sid = some p ∧ mapGet s.videoChatPairs sid = none ∧
        mapGet s.videoChatPairs p = none) ∨
      (mapGet s.videoChatPairs sid = some p ∧ mapGet s.chatPairs sid = none ∧
        mapGet s.chatPairs p = none) := by
    rcases hchat : mapGet s.chatPairs sid with _ | q
    · rw [hchat] at hp
      refine Or.inr ⟨hp, rfl, ?_⟩
      rcases hq : mapGet s.chatPairs p with _ | x
      · rfl
      · exfalso
        have hxp : (p, x) ∈ s.chatPairs := mem_of_mapGet hq
        have hnone := hdisj (p, x) hxp
        have hpv : (p, sid) ∈ s.videoChatPairs := hv.1 (sid, p) (mem_of_mapGet hp)
        have : mapGet s.videoChatPairs p = some sid := mapGet_of_mem hv.2 hpv
        rw [hnone] at this
        cases this
    · rw [hchat] at hp
      injection hp with hp'
      rw [hp'] at hchat
      refine Or.inl ⟨by rw [hp'], hdisj (sid, p) (mem_of_mapGet hchat), ?_⟩
      exact hdisj (p, sid) (hc.1 (sid, p) (mem_of_mapGet hchat))
  refine ⟨?_, ?_, ?_, ?_, ?_⟩
  · rcases hcases with ⟨h1, _, _⟩ | ⟨_, h2, h3⟩
    · exact SymmNodup_delPair hc (Or.inl h1)
    · exact SymmNodup_delPair hc (Or.inr ⟨h2, h3⟩)
  · rcases hcases with ⟨_, h2, h3⟩ | ⟨h1, _, _⟩
    · exact SymmNodup_delPair hv (Or.inr ⟨h2, h3⟩)
    · exact SymmNodup_delPair hv (Or.inl h1)
  · intro q hq
    have hq1 := mem_mapDelete.mp hq
    have hq2 := mem_mapDelete.mp hq1.1
    exact mapGet_mapDelete_none (mapGet_mapDelete_none (hdisj q hq2.1))
  · intro u hu
    obtain ⟨h1, h2⟩ := hwait u hu
    exact ⟨mapGet_mapDelete_none (mapGet_mapDelete_none h1),
           mapGet_mapDelete_none (mapGet_mapDelete_none h2)⟩
  · exact hnd

/-- Any single well-behaved event preserves the invariant. -/
theorem Inv_step {s : ServerState} {e : InEvent} (hInv : Inv s)
    (hok : okEvent s e = true) : Inv (step s e).1 := by
  obtain ⟨hc, hv, hdisj, hwait, hnd⟩ := hInv
  cases e with
  | findChat sid payload isVideo =>
    rw [okEvent, Bool.not_eq_true'] at hok
    obtain ⟨hsidc, hsidv⟩ := pairedAny_false hok
    by_cases hval : validatePreferences payload = true
    · rcases hm : findBestMatch ⟨sid, extractPrefs payload, isVideo⟩
          (removeFirstW s.waitingUsers sid) s.reportedUsers with _ | m
      · -- no match: enqueue
        rw [step_findChat_noMatch hval hm]
        refine ⟨hc, hv, hdisj, ?_, ?_⟩
        · intro u hu
          rcases List.mem_append.mp hu with hu' | hu'
          · exact hwait u (removeFirstW_mem hu')
          · have : u = ⟨sid, extractPrefs payload, isVideo⟩ := by simpa using hu'
            subst this
            exact ⟨hsidc, hsidv⟩
        · rw [List.map_append, List.nodup_append]
          refine ⟨removeFirstW_ids_nodup hnd, by simp, ?_⟩
          intro x hx
          obtain ⟨u, hu, hux⟩ := List.mem_map.mp hx
          simp only [List.map_cons, List.map_nil, List.mem_cons, List.not_mem_nil]
          intro hcon
          rcases hcon with hcon | hcon
          · exact removeFirstW_not_id hnd u hu (hux.symm ▸ hcon)
          · simp at hcon
      · -- match found
        obtain ⟨hmW, hmne, _, _, _⟩ := findBestMatch_spec hm
        have hmwait := hwait m (removeFirstW_mem hmW)
        have hmsid : m.socketId ≠ sid := hmne
        have hw1nd : ((removeFirstW s.waitingUsers sid).map
            (fun u => u.socketId)).Nodup := removeFirstW_ids_nodup hnd
        have hw2mem : ∀ u ∈ removeFirstW (removeFirstW s.waitingUsers sid) m.socketId,
            u ∈ s.waitingUsers ∧ u.socketId ≠ sid ∧ u.socketId ≠ m.socketId := by
          intro u hu
          refine ⟨removeFirstW_mem (removeFirstW_mem hu), ?_,
                  removeFirstW_not_id hw1nd u hu⟩
          exact removeFirstW_not_id hnd u (removeFirstW_mem hu)
        have hw2nd : ((removeFirstW (removeFirstW s.waitingUsers sid) m.socketId).map
            (fun u => u.socketId)).Nodup := removeFirstW_ids_nodup hw1nd
        cases isVideo with
        | false =>
          rw [step_findChat_match_text hval hm]
          refine ⟨SymmNodup_insertPair hc hsidc hmwait.1 (Ne.symm hmsid), hv, ?_, ?_, hw2nd⟩
          · intro q hq
            rw [mapSet_insertPair_eq hsidc hmwait.1 (Ne.symm hmsid)] at hq
            rcases List.mem_append.mp hq with hq' | hq'
            · exact hdisj q hq'
            · rcases List.mem_cons.mp hq' with h | h
              · subst h
                exact hsidv
              · have : q = (m.socketId, sid) := by simpa using h
                subst this
                exact hmwait.2
          · intro u hu
            obtain ⟨huW, husid, hum⟩ := hw2mem u hu
            constructor
            · rw [mapSet_insertPair_eq hsidc hmwait.1 (Ne.symm hmsid)]
              exact mapGet_appendPair_none (hwait u huW).1 husid hum
            · exact (hwait u huW).2
        | true =>
          rw [step_findChat_match_video hval hm]
          refine ⟨hc, SymmNodup_insertPair hv hsidv hmwait.2 (Ne.symm hmsid), ?_, ?_, hw2nd⟩
          · intro q hq
            rw [mapSet_insertPair_eq hsidv hmwait.2 (Ne.symm hmsid)]
            have hq1 : q.1 ≠ sid := by
              intro hcon
              have : mapGet s.chatPairs sid = some q.2 := by
                rw [← hcon]
                exact mapGet_of_mem hc.2 hq
              rw [hsidc] at this
              cases this
            have hq2 : q.1 ≠ m.socketId := by
              intro hcon
              have : mapGet s.chatPairs m.socketId = some q.2 := by
                rw [← hcon]
                exact mapGet_of_mem hc.2 hq
              rw [hmwait.1] at this
              cases this
            exact mapGet_appendPair_none (hdisj q hq) hq1 hq2
          · intro u hu
            obtain ⟨huW, husid, hum⟩ := hw2mem u hu
            constructor
            · exact (hwait u huW).1
            · rw [mapSet_insertPair_eq hsidv hmwait.2 (Ne.symm hmsid)]
              exact mapGet_appendPair_none (hwait u huW).2 husid hum
    · rw [step_findChat_invalid (Bool.not_eq_true _ ▸ hval)]
      exact ⟨hc, hv, hdisj, hwait, hnd⟩
  | message sid text =>
    rw [step_message_state]
    exact ⟨hc, hv, hdisj, hwait, hnd⟩
  | next sid =>
    rcases hp : partnerAny s sid with _ | p
    · rw [step_next_unpaired hp]
      exact ⟨hc, hv, hdisj, hwait, hnd⟩
    · rw [step_next_paired hp]
      exact Inv_removePairs ⟨hc, hv, hdisj, hwait, hnd⟩ hp
  | report sid reason =>
    rcases hp : partnerAny s sid with _ | p
    · rw [step_report_unpaired hp]
      exact ⟨hc, hv, hdisj, hwait, hnd⟩
    · rw [step_report_paired hp]
      have hInv2 : Inv { s with reportedUsers := setAdd s.reportedUsers p } :=
        ⟨hc, hv, hdisj, hwait, hnd⟩
      exact Inv_removePairs hInv2 hp
  | disconnect sid =>
    have hbase : ∀ s1 : ServerState, Inv s1 →
        Inv { s1 with waitingUsers := removeFirstW s1.waitingUsers sid,
                      reportedUsers := setDelete s1.reportedUsers sid } := by
      intro s1 h1
      obtain ⟨h1c, h1v, h1d, h1w, h1n⟩ := h1
      exact ⟨h1c, h1v, h1d, fun u hu => h1w u (removeFirstW_mem hu),
             removeFirstW_ids_nodup h1n⟩
    rcases hp : partnerAny s sid with _ | p
    · rw [step_disconnect_unpaired hp]
      exact hbase s ⟨hc, hv, hdisj, hwait, hnd⟩
    · rw [step_disconnect_paired hp]
      exact hbase _ (Inv_removePairs ⟨hc, hv, hdisj, hwait, hnd⟩ hp)
  | offer sid target payload =>
    rw [step_offer_eq]
    exact ⟨hc, hv, hdisj, hwait, hnd⟩
  | answer sid target payload =>
    rw [step_answer_eq]
    exact ⟨hc, hv, hdisj, hwait, hnd⟩
  | iceCandidate sid target payload =>
    rw [step_ice_eq]
    exact ⟨hc, hv, hdisj, hwait, hnd⟩

theorem Inv_initState : Inv initState := by
  refine ⟨⟨?_, ?_⟩, ⟨?_, ?_⟩, ?_, ?_, ?_⟩ <;> simp [initState, keysOf]

theorem Inv_execTrace : ∀ {es : List InEvent} {s : ServerState}, Inv s →
    goodTrace s es = true → Inv (execTrace s es) := by
  intro es
  induction es with
  | nil => intro s h _; exact h
  | cons e es ih =>
    intro s h hg
    rw [goodTrace, Bool.and_eq_true] at hg
    exact ih (Inv_step h hg.1) hg.2

theorem SymmNodup_mapGet {m : List (String × String)} {a b : String}
    (h : SymmNodup m) (hab : mapGet m a = some b) : mapGet m b = some a :=
  mapGet_of_mem h.2 (h.1 (a, b) (mem_of_mapGet hab))

/-! ### Block-list persistence lemmas -/

theorem report_adds {s : ServerState} {A B : String} {reason : String}
    (hp : partnerAny s A = some B) :
    B ∈ (step s (.report A reason)).1.reportedUsers := by
  rw [step_report_paired hp]
  exact mem_setAdd_self

theorem reported_persist {s : ServerState} {B : String} {e : InEvent}
    (hB : B ∈ s.reportedUsers) (he : e ≠ .disconnect B) :
    B ∈ (step s e).1.reportedUsers := by
  cases e with
  | findChat sid payload isVideo =>
    by_cases hval : validatePreferences payload = true
    · rcases hm : findBestMatch ⟨sid, extractPrefs payload, isVideo⟩
          (removeFirstW s.waitingUsers sid) s.reportedUsers with _ | m
      · rw [step_findChat_noMatch hval hm]
        exact hB
      · cases isVideo with
        | false =>
          rw [step_findChat_match_text hval hm]
          exact hB
        | true =>
          rw [step_findChat_match_video hval hm]
          exact hB
    · rw [step_findChat_invalid (Bool.not_eq_true _ ▸ hval)]
      exact hB
  | message sid text =>
    rw [step_message_state]
    exact hB
  | next sid =>
    rcases hp : partnerAny s sid with _ | p
    · rw [step_next_unpaired hp]
      exact hB
    · rw [step_next_paired hp]
      exact hB
  | report sid reason =>
    rcases hp : partnerAny s sid with _ | p
    · rw [step_report_unpaired hp]
      exact hB
    · rw [step_report_paired hp]
      exact mem_setAdd_of_mem hB
  | disconnect sid =>
    have hsid : sid ≠ B := by
      intro hc
      subst hc
      exact he rfl
    rcases hp : partnerAny s sid with _ | p
    · rw [step_disconnect_unpaired hp]
      exact mem_setDelete.mpr ⟨hB, Ne.symm hsid⟩
    · rw [step_disconnect_paired hp]
      exact mem_setDelete.mpr ⟨hB, Ne.symm hsid⟩
  | offer sid target payload =>
    rw [step_offer_eq]
    exact hB
  | answer sid target payload =>
    rw [step_answer_eq]
    exact hB
  | iceCandidate sid target payload =>
    rw [step_ice_eq]
    exact hB

theorem reported_persist_trace {B : String} :
    ∀ {es : List InEvent} {s : ServerState}, B ∈ s.reportedUsers →
      (∀ e ∈ es, e ≠ InEvent.disconnect B) →
      B ∈ (execTrace s es).reportedUsers := by
  intro es
  induction es with
  | nil => intro s hB _; exact hB
  | cons e es ih =>
    intro s hB hes
    exact ih (reported_persist hB (hes e (List.mem_cons_self e es)))
      (fun e' he' => hes e' (List.mem_cons_of_mem e he'))

theorem findBestMatch_not_reported {user : WaitingUser}
    {waiting : List WaitingUser} {rep : List String} {m : WaitingUser}
    {B : String} (hB : B ∈ rep)
    (h : findBestMatch user waiting rep = some m) : m.socketId ≠ B := by
  intro hc
  exact (findBestMatch_spec h).2.2.1 (hc ▸ hB)

theorem disconnect_clears {s : ServerState} {B : String} :
    B ∉ (step s (.disconnect B)).1.reportedUsers := by
  rcases hp : partnerAny s B with _ | p
  · rw [step_disconnect_unpaired hp]
    intro hmem
    exact (mem_setDelete.mp hmem).2 rfl
  · rw [step_disconnect_paired hp]
    intro hmem
    exact (mem_setDelete.mp hmem).2 rfl

/-! ## Claim theorems -/

/-- C1: the claim says `findBestMatch` never returns a candidate whose
`chatMode` differs from the requester's.  The code never compares
`isVideoChat` (contradicting its own comment "Find a match based on chat
type and preferences"): evaluated at a text-mode requester with a single
video-mode waiting user sharing a tag and language, the matchmaker returns
that video-mode user. -/
theorem c1_findBestMatch_ignores_chatMode :
    findBestMatch ⟨"A", examplePrefs, false⟩ [⟨"B", examplePrefs, true⟩] [] =
      some ⟨"B", examplePrefs, true⟩ ∧
    (⟨"B", examplePrefs, true⟩ : WaitingUser).isVideoChat ≠
      (⟨"A", examplePrefs, false⟩ : WaitingUser).isVideoChat := by
  decide

/-- C2 (counterexample): pairing symmetry is not an invariant of every
reachable state.  After A and B pair, C enqueues, and the already-paired A
issues another `findChat`, the text pairing map holds B↦A but A↦C. -/
theorem c2_pairing_symmetry_counterexample :
    mapGet (execTrace initState
        (exampleTrace3 ++ [.findChat "A" examplePayload false])).chatPairs "B" =
      some "A" ∧
    mapGet (execTrace initState
        (exampleTrace3 ++ [.findChat "A" examplePayload false])).chatPairs "A" ≠
      some "B" := by
  decide

/-- C2 (amended): pairing symmetry holds in every state reachable by
`findChat`/`next`/`report`/`disconnect` sequences in which each `findChat`
is issued by a session with no current pairing in either map. -/
theorem c2_pairing_symmetry (es : List InEvent)
    (hg : goodTrace initState es = true) :
    (∀ a b, mapGet (execTrace initState es).chatPairs a = some b →
        mapGet (execTrace initState es).chatPairs b = some a) ∧
    (∀ a b, mapGet (execTrace initState es).videoChatPairs a = some b →
        mapGet (execTrace initState es).videoChatPairs b = some a) := by
  have hInv := Inv_execTrace Inv_initState hg
  exact ⟨fun a b h => SymmNodup_mapGet hInv.1 h,
         fun a b h => SymmNodup_mapGet hInv.2.1 h⟩

/-- C2 witness: the two-session pairing trace is well-behaved and its final
state is symmetric. -/
theorem c2_pairing_symmetry_witness :
    goodTrace initState exampleTrace2 = true ∧
    (∀ a b, mapGet (execTrace initState exampleTrace2).chatPairs a = some b →
        mapGet (execTrace initState exampleTrace2).chatPairs b = some a) ∧
    (∀ a b, mapGet (execTrace initState exampleTrace2).videoChatPairs a = some b →
        mapGet (execTrace initState exampleTrace2).videoChatPairs b = some a) :=
  ⟨by decide, (c2_pairing_symmetry exampleTrace2 (by decide)).1,
   (c2_pairing_symmetry exampleTrace2 (by decide)).2⟩

/-- C3 (counterexample): the code has no `AlreadyPaired` failure.  In
`exampleTrace3` session A is paired with B; A's further `findChat` still
creates a pairing with C, leaving both B↦A and A↦C recorded simultaneously
in the text map — two concurrent partnerships for A under one mode. -/
theorem c3_at_most_one_partner_counterexample :
    mapGet (execTrace initState exampleTrace3).chatPairs "A" = some "B" ∧
    mapGet (execTrace initState
        (exampleTrace3 ++ [.findChat "A" examplePayload false])).chatPairs "A" =
      some "C" ∧
    mapGet (execTrace initState
        (exampleTrace3 ++ [.findChat "A" examplePayload false])).chatPairs "B" =
      some "A" ∧
    ("C" : String) ≠ "B" := by
  decide

/-- C3 (amended): in every state reachable by sequences whose `findChat`
events all come from unpaired sessions, each session has at most one
partner per mode — the partner-of relation is injective per map — and no
session is paired in both modes at once. -/
theorem c3_at_most_one_partner (es : List InEvent)
    (hg : goodTrace initState es = true) :
    (∀ a b c, mapGet (execTrace initState es).chatPairs b = some a →
        mapGet (execTrace initState es).chatPairs c = some a → b = c) ∧
    (∀ a b c, mapGet (execTrace initState es).videoChatPairs b = some a →
        mapGet (execTrace initState es).videoChatPairs c = some a → b = c) ∧
    (∀ a b, mapGet (execTrace initState es).chatPairs a = some b →
        mapGet (execTrace initState es).videoChatPairs a = none) := by
  have hInv := Inv_execTrace Inv_initState hg
  refine ⟨?_, ?_, ?_⟩
  · intro a b c hb hc
    have hab := SymmNodup_mapGet hInv.1 hb
    have hac := SymmNodup_mapGet hInv.1 hc
    rw [hab] at hac
    injection hac
  · intro a b c hb hc
    have hab := SymmNodup_mapGet hInv.2.1 hb
    have hac := SymmNodup_mapGet hInv.2.1 hc
    rw [hab] at hac
    injection hac
  · intro a b h
    exact hInv.2.2.1 (a, b) (mem_of_mapGet h)

/-- C3 witness: the two-session video pairing trace is well-behaved and its
final state satisfies the per-mode uniqueness properties. -/
theorem c3_at_most_one_partner_witness :
    goodTrace initState exampleTrace2v = true ∧
    (∀ a b c, mapGet (execTrace initState exampleTrace2v).chatPairs b = some a →
        mapGet (execTrace initState exampleTrace2v).chatPairs c = some a → b = c) ∧
    (∀ a b, mapGet (execTrace initState exampleTrace2v).chatPairs a = some b →
        mapGet (execTrace initState exampleTrace2v).videoChatPairs a = none) :=
  ⟨by decide, (c3_at_most_one_partner exampleTrace2v (by decide)).1,
   (c3_at_most_one_partner exampleTrace2v (by decide)).2.2⟩

/-- C4: the claim says `next()` from a paired session re-runs the `findChat`
matchmaking with the last-supplied preferences.  In `exampleState3`, A is
paired with B and C waits with identical preferences; `next` from A emits
exactly one `chatEnded` to B and unpairs, but performs no matchmaking at
all: C stays waiting, A is neither paired nor enqueued, and no message is
sent to A — even though `findBestMatch` run with A's preferences would have
returned a match (last conjunct).  The handler only emits a client-bound
`'findChat'` event, and only when the session still has a waiting entry,
which a paired session does not. -/
theorem c4_next_no_rematch :
    (step exampleState3 (.next "A")).2 = [("B", OutEvent.chatEnded)] ∧
    mapGet (step exampleState3 (.next "A")).1.chatPairs "A" = none ∧
    mapGet (step exampleState3 (.next "A")).1.chatPairs "B" = none ∧
    (step exampleState3 (.next "A")).1.waitingUsers =
      [⟨"C", examplePrefs, false⟩] ∧
    (findBestMatch ⟨"A", examplePrefs, false⟩
        (step exampleState3 (.next "A")).1.waitingUsers
        (step exampleState3 (.next "A")).1.reportedUsers).isSome = true := by
  decide

/-- C5: once `report(A reports B)` is processed while A and B are paired,
B is on the block list, stays there through any event sequence that does
not contain B's own disconnect, is never returned by the matchmaker for any
requester in any such later state, and B's own disconnect removes it. -/
theorem c5_block_exclusion (s : ServerState) (A B reason : String)
    (es : List InEvent) (hp : partnerAny s A = some B)
    (hes : ∀ e ∈ es, e ≠ InEvent.disconnect B) :
    B ∈ (execTrace (step s (.report A reason)).1 es).reportedUsers ∧
    (∀ r m, findBestMatch r
        (execTrace (step s (.report A reason)).1 es).waitingUsers
        (execTrace (step s (.report A reason)).1 es).reportedUsers = some m →
        m.socketId ≠ B) ∧
    B ∉ (step (execTrace (step s (.report A reason)).1 es)
        (.disconnect B)).1.reportedUsers := by
  have h1 : B ∈ (step s (.report A reason)).1.reportedUsers := report_adds hp
  have h2 := reported_persist_trace h1 hes
  refine ⟨h2, ?_, disconnect_clears⟩
  intro r m hm
  exact findBestMatch_not_reported h2 hm

/-- C5 witness: report B from the paired state, run one unrelated event,
and check blocking plus removal on disconnect. -/
theorem c5_block_exclusion_witness :
    partnerAny examplePairedState "A" = some "B" ∧
    "B" ∈ (execTrace (step examplePairedState (.report "A" "abusive")).1
        [.findChat "C" examplePayload false]).reportedUsers ∧
    "B" ∉ (step (execTrace (step examplePairedState (.report "A" "abusive")).1
        [.findChat "C" examplePayload false]) (.disconnect "B")).1.reportedUsers :=
  ⟨by decide,
   (c5_block_exclusion examplePairedState "A" "B" "abusive"
      [.findChat "C" examplePayload false] (by decide) (by decide)).1,
   (c5_block_exclusion examplePairedState "A" "B" "abusive"
      [.findChat "C" examplePayload false] (by decide) (by decide)).2.2⟩

/-- C6: each relay event (offer, answer, ice-candidate) leaves the state
unchanged and forwards the payload (tagged with the sender) to the target
iff the target is the sender's current video partner; otherwise it emits
nothing to anyone. -/
theorem c6_relay_authorization (s : ServerState) (sender target : String)
    (payload : Nat) :
    step s (.offer sender target payload) =
      (s, if mapGet s.videoChatPairs sender = some target then
            [(target, .offerFwd payload sender)]
          else []) ∧
    step s (.answer sender target payload) =
      (s, if mapGet s.videoChatPairs sender = some target then
            [(target, .answerFwd payload sender)]
          else []) ∧
    step s (.iceCandidate sender target payload) =
      (s, if mapGet s.videoChatPairs sender = some target then
            [(target, .iceFwd payload sender)]
          else []) :=
  ⟨step_offer_eq s sender target payload,
   step_answer_eq s sender target payload,
   step_ice_eq s sender target payload⟩

/-- C7: a `message` event never changes state; with no current text
partner it emits nothing; with partner `p` it delivers exactly the filtered
text to `p`, preceded by a `messageModerated` notice to the sender exactly
when the filter modified the text. -/
theorem c7_message_delivery (s : ServerState) (sid : String) (text : Str) :
    (step s (.message sid text)).1 = s ∧
    (mapGet s.chatPairs sid = none → (step s (.message sid text)).2 = []) ∧
    (∀ p, mapGet s.chatPairs sid = some p →
      (step s (.message sid text)).2 =
        (if filterMessage text ≠ text then
           [(sid, .messageModerated text (filterMessage text))]
         else []) ++ [(p, .messageEv (filterMessage text))]) := by
  refine ⟨step_message_state s sid text, ?_, ?_⟩
  · intro h
    rw [step_message_none h]
  · intro p hp
    by_cases hf : filterMessage text = text
    · rw [step_message_clean hp hf]
      simp [hf]
    · rw [step_message_dirty hp hf]
      simp [hf]

/-- C7 witness: a moderated message from the paired state. -/
theorem c7_message_delivery_witness :
    mapGet examplePairedState.chatPairs "A" = some "B" ∧
    (step examplePairedState (.message "A" "wh0re".data)).2 =
      (if filterMessage "wh0re".data ≠ "wh0re".data then
         [("A", OutEvent.messageModerated "wh0re".data (filterMessage "wh0re".data))]
       else []) ++ [("B", OutEvent.messageEv (filterMessage "wh0re".data))] :=
  ⟨by decide,
   (c7_message_delivery examplePairedState "A" "wh0re".data).2.2 "B" (by decide)⟩

/-- C8: a message the detector considers clean is returned unchanged (so
the was-modified flag, computed as `filtered !== message`, is false), and
filtering is idempotent on every string. -/
theorem c8_moderation_idempotent (m : Str) :
    (containsBannedWords m = false → filterMessage m = m) ∧
    filterMessage (filterMessage m) = filterMessage m := by
  constructor
  · intro h
    rw [filterMessage, if_neg (by simp [h])]
  · by_cases h : containsBannedWords m = true
    · have hm : filterMessage m = applyFilters m := by
        rw [filterMessage, if_pos h]
      rw [hm]
      by_cases h2 : containsBannedWords (applyFilters m) = true
      · rw [filterMessage, if_pos h2, applyFilters_idem]
      · rw [filterMessage, if_neg (by simp [h2])]
    · have hm : filterMessage m = m := by
        rw [filterMessage, if_neg (by simp [h])]
      rw [hm, hm]

/-- C8 witness: a clean message passes through; a flagged one filters
idempotently. -/
theorem c8_moderation_idempotent_witness :
    containsBannedWords "hello".data = false ∧
    filterMessage "hello".data = "hello".data ∧
    filterMessage (filterMessage "wh0re party".data) =
      filterMessage "wh0re party".data :=
  ⟨by decide, (c8_moderation_idempotent "hello".data).1 (by decide),
   (c8_moderation_idempotent "wh0re party".data).2⟩

/-- C9: a `findChat` whose preferences payload fails validation produces
exactly one `error` event to the caller and leaves the whole state — the
waiting queue, both pairing maps and the block list — unchanged; nobody
else receives anything. -/
theorem c9_invalid_preferences (s : ServerState) (sid : String)
    (payload : PrefPayload) (isVideo : Bool)
    (h : validatePreferences payload = false) :
    step s (.findChat sid payload isVideo) =
      (s, [(sid, .errorEv "Invalid preferences format")]) :=
  step_findChat_invalid h

/-- C9 witness: a payload with a non-array `tags` field is rejected without
touching the state. -/
theorem c9_invalid_preferences_witness :
    validatePreferences
        (.object (.jstr "x") (.jstr "en") (.jstr "18") (.jbool true)) = false ∧
    step initState (.findChat "A"
        (.object (.jstr "x") (.jstr "en") (.jstr "18") (.jbool true)) false) =
      (initState, [("A", .errorEv "Invalid preferences format")]) :=
  ⟨by decide,
   c9_invalid_preferences initState "A"
     (.object (.jstr "x") (.jstr "en") (.jstr "18") (.jbool true)) false (by decide)⟩

/-- C10: the sender is notified iff the literal replacement changed the
string, and "s-l-u-t" — detected by the normalising detector but untouched
by the literal replacement — is forwarded verbatim to the partner with no
moderation notice to either side. -/
theorem c10_moderation_bypass (s : ServerState) (sid p : String) (text : Str)
    (hp : mapGet s.chatPairs sid = some p) :
    (((sid, OutEvent.messageModerated text (filterMessage text)) ∈
        (step s (.message sid text)).2) ↔ filterMessage text ≠ text) ∧
    containsBannedWords "s-l-u-t".data = true ∧
    filterMessage "s-l-u-t".data = "s-l-u-t".data ∧
    (step s (.message sid "s-l-u-t".data)).2 =
      [(p, .messageEv "s-l-u-t".data)] := by
  refine ⟨?_, by decide, by decide, ?_⟩
  · by_cases hf : filterMessage text = text
    · rw [step_message_clean hp hf]
      simp [hf]
    · rw [step_message_dirty hp hf]
      simp [hf]
  · have hslut : filterMessage "s-l-u-t".data = "s-l-u-t".data := by decide
    rw [step_message_clean hp hslut, hslut]

/-- C10 witness: from the paired state, "s-l-u-t" reaches the partner
verbatim and nobody is notified. -/
theorem c10_moderation_bypass_witness :
    mapGet examplePairedState.chatPairs "A" = some "B" ∧
    containsBannedWords "s-l-u-t".data = true ∧
    filterMessage "s-l-u-t".data = "s-l-u-t".data ∧
    (step examplePairedState (.message "A" "s-l-u-t".data)).2 =
      [("B", OutEvent.messageEv "s-l-u-t".data)] :=
  ⟨by decide,
   (c10_moderation_bypass examplePairedState "A" "B" [] (by decide)).2.1,
   (c10_moderation_bypass examplePairedState "A" "B" [] (by decide)).2.2.1,
   (c10_moderation_bypass examplePairedState "A" "B" [] (by decide)).2.2.2⟩

end StrangerChat
